import Mathlib

/-
Verification of the webchk crawler against its specification.

The development shallowly embeds the Go source of the repository:
 - `followAdmit` / `runFollow` embed the dedup-filter closure `followURLs`
   (dispatcher.go lines 76-95);
 - `goLines`, `getMatchesLoop`, `getMatches` embed the line scanner and
   `getMatches` (web.go lines 152-170);
 - `URL`, `resolveReference`, `linkString`, `getLinksM` embed `getLinks`
   (web.go lines 116-150) over an abstract view of the parsed HTML tree:
   the list of anchor href values in document order, each already parsed
   into a `URL` record (`none` marks an href that fails to parse and is
   skipped); URL resolution models net/url's ResolveReference without
   dot-segment removal;
 - `clientGet` embeds the method `getClient.get` (web.go lines 73-110);
 - `NewDispatch` and the warning conditions embed the dispatch
   construction (part_007 lines 111-154) and the pre-run check of
   `Dispatcher` (dispatcher.go lines 102-106);
 - `processLinks` / `step` embed the coordinator event loop of
   `Dispatcher` (dispatcher.go lines 196-236): one `step` is one
   iteration of the select loop, a `terminated` status models the
   `return` that runs the deferred closes of the output stream and the
   frontier channel and the context cancellation.

Go strings are modelled through their character lists; `strContains`,
`strHasSuffix`, `strTrimSuffix`, `strTrimSpace`, `strToLower` embed the
corresponding functions of the strings package (case mapping is modelled
on ASCII letters, which is what `Char.toLower` provides).
-/

namespace Webchk

/-- strings.Contains: sub occurs as a contiguous substring of s. -/
def strContains (s sub : String) : Bool :=
  decide (sub.toList <:+: s.toList)

/-- strings.HasSuffix: s ends with the given suffix. -/
def strHasSuffix (s suffix : String) : Bool :=
  decide (suffix.toList <:+ s.toList)

/-- strings.TrimSuffix: remove one copy of the suffix when present. -/
def strTrimSuffix (s suffix : String) : String :=
  if strHasSuffix s suffix then
    String.mk (s.toList.take (s.toList.length - suffix.toList.length))
  else s

/-- strings.ToLower restricted to ASCII case mapping. -/
def strToLower (s : String) : String :=
  String.mk (s.toList.map Char.toLower)

/-- strings.TrimSpace: remove leading and trailing whitespace. -/
def strTrimSpace (s : String) : String :=
  String.mk (((s.toList.dropWhile Char.isWhitespace).reverse.dropWhile
    Char.isWhitespace).reverse)

/-- URLSuffixesToSkip of dispatcher.go: url suffixes not followed. -/
def URLSuffixesToSkip : List String :=
  [".png", ".jpg", ".jpeg", ".heic", ".svg"]

/-- Body of the closure returned by `followURLs` after the candidate has
been normalized: the order of checks is the source's — scope by substring
containment of the base URL, then the visited set, then the skipped
suffixes; on acceptance the URL is recorded. The visited map is modelled
by a list. -/
def followAdmitNorm (baseURL : String) (visited : List String) (u : String) :
    Bool × List String :=
  if strContains u baseURL = false then (false, visited)
  else if u ∈ visited then (false, visited)
  else if URLSuffixesToSkip.any (fun sk => strHasSuffix u sk) then (false, visited)
  else (true, u :: visited)

/-- One call of the closure returned by `followURLs` (dispatcher.go lines
79-94): the candidate first loses a single trailing slash. -/
def followAdmit (baseURL : String) (visited : List String) (u : String) :
    Bool × List String :=
  followAdmitNorm baseURL visited (strTrimSuffix u "/")

/-- A whole sequence of calls to the dedup filter in one crawl: returns
the list of normalized URLs that were admitted, in order, and the final
visited set. `followURLs baseURL` seeds the visited set with the base
URL, so a crawl runs this from `[baseURL]`. -/
def runFollow (baseURL : String) : List String → List String → List String × List String
  | [], visited => ([], visited)
  | u :: us, visited =>
    let fa := followAdmit baseURL visited u
    let rest := runFollow baseURL us fa.2
    (if fa.1 then strTrimSuffix u "/" :: rest.1 else rest.1, rest.2)

/-- SearchMatch of web.go: a search term match in an html file. -/
structure SearchMatch where
  line : Nat
  term : String
deriving DecidableEq, Repr

/-- bufio's dropCR: drop a single terminal carriage return from a line. -/
def dropCR (l : List Char) : List Char :=
  if l.getLast? = some '\x0d' then l.dropLast else l

/-- One step of splitting a character stream into newline-separated
tokens, consuming the stream from the right. -/
def consLine (c : Char) (acc : List (List Char)) : List (List Char) :=
  if c = '\n' then [] :: acc
  else
    match acc with
    | [] => [[c]]
    | l :: ls => (c :: l) :: ls

/-- The lines produced by bufio.Scanner with ScanLines: tokens between
newlines, a trailing newline produces no empty final token, the empty
input produces no token, and each token loses one trailing carriage
return. -/
def goLines (s : String) : List String :=
  (s.toList.foldr consLine []).map (fun l => String.mk (dropCR l))

/-- The scanning loop of `getMatches`: line numbers are 1-based, each
line contributes one SearchMatch for every search term it contains
case-insensitively. -/
def getMatchesLoop (searchTerms : List String) : Nat → List String → List SearchMatch
  | _, [] => []
  | lineNo, line :: rest =>
    (searchTerms.filter
        (fun st => strContains (strToLower line) (strToLower st))).map
        (fun st => SearchMatch.mk (lineNo + 1) st)
      ++ getMatchesLoop searchTerms (lineNo + 1) rest

/-- getMatches of web.go lines 152-170. -/
def getMatches (body : String) (searchTerms : List String) : List SearchMatch :=
  if searchTerms.length = 0 then []
  else getMatchesLoop searchTerms 0 (goLines body)

/-- A parsed URL, modelling the fields of net/url's URL that webchk
touches (RawQuery is `query`, Fragment is `fragment`). -/
structure URL where
  scheme : String
  host : String
  path : String
  query : String
  fragment : String
deriving DecidableEq, Repr

/-- net/url's URL.String, restricted to the modelled fields. -/
def urlString (u : URL) : String :=
  (if u.scheme = "" then "" else u.scheme ++ ":") ++
    (if u.host = "" then "" else "//" ++ u.host) ++
    u.path ++
    (if u.query = "" then "" else "?" ++ u.query) ++
    (if u.fragment = "" then "" else "#" ++ u.fragment)

/-- The directory part of a path: everything up to and including the
last slash. -/
def dirPath (p : String) : String :=
  String.mk ((p.toList.reverse.dropWhile (fun c => c ≠ '/')).reverse)

/-- RFC 3986 path merge as performed by net/url (without dot-segment
removal). -/
def mergePath (basePath refPath : String) : String :=
  dirPath basePath ++ refPath

/-- net/url's ResolveReference (without dot-segment removal): this is
what `url.Parse(a.Val)` performs on the page URL in `getLinks`. -/
def resolveReference (base ref : URL) : URL :=
  if ref.scheme ≠ "" then ref
  else if ref.host ≠ "" then { ref with scheme := base.scheme }
  else if ref.path = "" then
    { base with
      query := if ref.query = "" then base.query else ref.query
      fragment := ref.fragment }
  else if ref.path.toList.head? = some '/' then
    { scheme := base.scheme, host := base.host, path := ref.path
      query := ref.query, fragment := ref.fragment }
  else
    { scheme := base.scheme, host := base.host
      path := mergePath base.path ref.path
      query := ref.query, fragment := ref.fragment }

/-- `linkURL.RawQuery, linkURL.Fragment = "", ""` of web.go line 133. -/
def stripQueryFragment (u : URL) : URL :=
  { u with query := "", fragment := "" }

/-- What one href contributes in `getLinks`: resolve against the page
URL, strip query and fragment, render, trim one trailing slash, trim
whitespace (web.go lines 129-135). -/
def linkString (base ref : URL) : String :=
  strTrimSpace (strTrimSuffix (urlString (stripQueryFragment (resolveReference base ref))) "/")

/-- The tail loop of slices.Compact: drop an element equal to its
predecessor, otherwise keep it and continue from it. -/
def compactTail (prev : String) : List String → List String
  | [] => []
  | b :: rest => if prev = b then compactTail prev rest else b :: compactTail b rest

/-- slices.Compact: remove adjacent duplicates. -/
def slicesCompact : List String → List String
  | [] => []
  | a :: rest => a :: compactTail a rest

/-- slices.Sort on strings (web.go line 143). -/
def sortURLs (ls : List String) : List String :=
  List.insertionSort (· ≤ ·) ls

/-- getLinks of web.go lines 116-150 over the abstract parse: `parseOk`
models whether html.Parse succeeds, `hrefs` the anchor href attribute
values in document order (`none` for an href that url.Parse rejects,
which the source skips). The source sorts and compacts the accumulated
list at every tree node; the net result equals one final sort and
compact, which is what this definition performs. Returns the links and
the error of the Go pair. -/
def getLinksM (parseOk : Bool) (base : URL) (hrefs : List (Option URL)) :
    List String × Option String :=
  if parseOk then
    (slicesCompact (sortURLs (hrefs.filterMap (fun h => h.map (linkString base)))), none)
  else ([], some "could not parse file")

/-- The error taxonomy carried in a Result: the sentinel linkErrors of
dispatcher.go lines 31-35, the transport error of client.Get, and the
two wrapped errors of `getClient.get`. -/
inductive GoErr where
  | statusNotOk
  | nonHTMLPageType
  | transport (msg : String)
  | readWrap (msg : String)
  | linksWrap (msg : String)
deriving DecidableEq, Repr

/-- Result of web.go lines 52-57. -/
structure Result where
  url : String
  referrer : String
  status : Nat
  matchList : List SearchMatch
  err : Option GoErr
deriving DecidableEq, Repr

/-- An HTTP response as `getClient.get` consumes it: the status code,
the Content-Type header, the outcome of reading the body, and the
abstract parse of the body for `getLinks`. -/
structure Response where
  statusCode : Nat
  contentType : String
  body : Except String String
  requestURL : URL
  hrefs : List (Option URL)
  parseOk : Bool

/-- The outcome of `g.client.Get(url)`: a transport failure or a
response. -/
inductive FetchOutcome where
  | failure (msg : String)
  | response (resp : Response)

/-- http.StatusOK. -/
def httpStatusOK : Nat := 200

/-- http.StatusTooManyRequests. -/
def httpStatusTooManyRequests : Nat := 429

/-- getClient.get of web.go lines 73-110: always returns a Result; the
second component is the discovered-links list. -/
def clientGet (out : FetchOutcome) (url referrer : String)
    (searchTerms : List String) : Result × List String :=
  match out with
  | .failure msg =>
    ({ url := url, referrer := referrer, status := 0, matchList := []
       err := some (.transport msg) }, [])
  | .response resp =>
    let r : Result :=
      { url := url, referrer := referrer, status := resp.statusCode
        matchList := [], err := none }
    if resp.statusCode ≠ httpStatusOK then ({ r with err := some .statusNotOk }, [])
    else if strContains resp.contentType "text/html" = false then
      ({ r with err := some .nonHTMLPageType }, [])
    else
      match resp.body with
      | .error msg => ({ r with err := some (.readWrap msg) }, [])
      | .ok body =>
        match getLinksM resp.parseOk resp.requestURL resp.hrefs with
        | (links, some msg) => ({ r with err := some (.linksWrap msg) }, links)
        | (links, none) =>
          ({ r with matchList := getMatches body searchTerms }, links)

/-- GOWORKERS default of part_007 line 41. -/
def GOWORKERS : Int := 8

/-- LINKBUFFERSIZE default of part_007 line 43. -/
def LINKBUFFERSIZE : Int := 2500

/-- HTTPRATESEC default of part_007 line 49. -/
def HTTPRATESEC : Int := 10

/-- One millisecond in the nanoseconds of a Go time.Duration. -/
def millisecond : Int := 1000000

/-- HTTPTIMEOUT of dispatcher.go line 50: 1750 ms. -/
def HTTPTIMEOUT : Int := 1750 * millisecond

/-- DISPATCHERTIMEOUT of dispatcher.go line 53: 1800 ms. -/
def DISPATCHERTIMEOUT : Int := 1800 * millisecond

/-- The http client wrapper as the dispatch struct stores it; the field
models `client.client.Timeout`. -/
structure GetClientM where
  timeout : Int
deriving DecidableEq, Repr

/-- dispatch of part_007 lines 100-109. -/
structure Dispatch where
  baseURL : String
  workers : Int
  linkBufferSize : Int
  httpRateSec : Int
  searchTerms : List String
  dispatcherTimeout : Int
  ctxTimeout : Int
  client : GetClientM
deriving DecidableEq, Repr

/-- NewDispatch of part_007 lines 113-143. -/
def NewDispatch (baseURL : String) (workers linkBufferSize httpRateSec : Int)
    (searchTerms : List String) (dispatcherTimeout timeout : Int)
    (client : GetClientM) : Dispatch :=
  { baseURL := baseURL
    workers := if workers < 1 then GOWORKERS else workers
    linkBufferSize := if linkBufferSize < 1 then LINKBUFFERSIZE else linkBufferSize
    httpRateSec := if httpRateSec < 1 then HTTPRATESEC else httpRateSec
    searchTerms := searchTerms
    dispatcherTimeout := dispatcherTimeout
    ctxTimeout := timeout
    client := client }

/-- The pre-run check of `Dispatcher` in dispatcher.go line 104: the
warning is printed when DISPATCHERTIMEOUT < HTTPTIMEOUT. -/
def dispatcherWarnCond : Bool :=
  decide (DISPATCHERTIMEOUT < HTTPTIMEOUT)

/-- The pre-run check of `dispatch.Dispatcher` in part_007 line 152: the
warning is printed when the global deadline is positive and smaller than
the http client timeout. -/
def dispatchWarnCond (d : Dispatch) : Bool :=
  decide (0 < d.ctxTimeout) && decide (d.ctxTimeout < d.client.timeout)

/-- refLink of dispatcher.go lines 108-110. -/
structure RefLink where
  url : String
  referrer : String
deriving DecidableEq, Repr

/-- Why a run of the coordinator loop returned. -/
inductive Reason where
  | bufferFull
  | tooManyRequests
  | idle
  | drained
deriving DecidableEq, Repr

/-- Whether the coordinator loop is still running. -/
inductive Status where
  | running
  | terminated (reason : Reason)
deriving DecidableEq, Repr

/-- The configuration the coordinator loop reads: the base URL for the
dedup filter, the capacity of the links channel, and the value the idle
timer is reset to. -/
structure Config where
  baseURL : String
  linkBufferSize : Nat
  dispatcherTimeout : Nat
deriving DecidableEq, Repr

/-- The state the coordinator goroutine owns: the dedup filter's visited
set, the buffered links channel content, the results forwarded so far,
the remaining idle-timer value, and whether the loop has returned. -/
structure CoordState where
  visited : List String
  frontier : List RefLink
  output : List Result
  timer : Nat
  status : Status
deriving DecidableEq, Repr

/-- The events the select of dispatcher.go lines 206-234 reacts to. -/
inductive Event where
  | linksFound (ls : List RefLink)
  | linksClosed
  | result (r : Result)
  | resultsClosed
  | timerFired

/-- The discovered-links case of the coordinator (dispatcher.go lines
207-221): each link runs the dedup filter; an accepted link is enqueued
when the buffered channel has room, and otherwise the loop returns with
a full buffer. The idle timer is not touched. -/
def processLinks (cfg : Config) : List RefLink → CoordState → CoordState
  | [], s => s
  | l :: ls, s =>
    let fa := followAdmit cfg.baseURL s.visited l.url
    if fa.1 then
      if s.frontier.length < cfg.linkBufferSize then
        processLinks cfg ls
          { s with visited := fa.2, frontier := s.frontier ++ [l] }
      else { s with visited := fa.2, status := .terminated .bufferFull }
    else processLinks cfg ls { s with visited := fa.2 }

/-- One iteration of the select while the loop is running: the result
case (dispatcher.go lines 222-231) resets the idle timer and then either
stops on a 429 status without forwarding or forwards the result; a
closed channel or the idle timer firing makes the loop return. -/
def stepRun (cfg : Config) (s : CoordState) : Event → CoordState
  | .linksFound ls => processLinks cfg ls s
  | .linksClosed => { s with status := .terminated .drained }
  | .result r =>
    if r.status = httpStatusTooManyRequests then
      { s with timer := cfg.dispatcherTimeout, status := .terminated .tooManyRequests }
    else
      { s with timer := cfg.dispatcherTimeout, output := s.output ++ [r] }
  | .resultsClosed => { s with status := .terminated .drained }
  | .timerFired => { s with status := .terminated .idle }

/-- One event of the coordinator loop: once the loop has returned (a
`terminated` status, which models the deferred close of the output
stream and the links channel and the context cancellation) no further
event is processed. -/
def step (cfg : Config) (s : CoordState) (e : Event) : CoordState :=
  if s.status = Status.running then stepRun cfg s e else s

/-- The coordinator's initial state: the dedup filter pre-seeded with
the base URL and the frontier seeded with one entry for it
(dispatcher.go lines 180-181). -/
def initState (cfg : Config) : CoordState :=
  { visited := [cfg.baseURL]
    frontier := [{ url := cfg.baseURL, referrer := "/" }]
    output := [], timer := cfg.dispatcherTimeout, status := .running }

/-- A concrete coordinator configuration used to exercise the event
loop on explicit inputs. -/
def cexConfig : Config :=
  { baseURL := "http://x.com", linkBufferSize := 10, dispatcherTimeout := 1800 }

/-- A concrete running coordinator state whose idle timer is partly
elapsed. -/
def cexState : CoordState :=
  { visited := ["http://x.com"], frontier := [], output := [], timer := 7
    status := .running }

/-- A concrete in-scope, not yet visited link. -/
def cexLink : RefLink :=
  { url := "http://x.com/a", referrer := "http://x.com" }

/-- A concrete ordinary result. -/
def cexResult : Result :=
  { url := "http://x.com/a", referrer := "http://x.com", status := 200
    matchList := [], err := none }

/-- A concrete result carrying a 429 status. -/
def cexResult429 : Result :=
  { url := "http://x.com/a", referrer := "http://x.com", status := 429
    matchList := [], err := some .statusNotOk }

/-- A concrete HTTP response with a 2xx status other than 200. -/
def resp204 : Response :=
  { statusCode := 204, contentType := "text/html", body := Except.ok ""
    requestURL := { scheme := "http", host := "x.com", path := "/", query := ""
                    fragment := "" }
    hrefs := [], parseOk := true }

/-- A concrete successful HTML response with three hrefs, one of which
fails to parse. -/
def respLinks : Response :=
  { statusCode := 200, contentType := "text/html; charset=utf-8"
    body := Except.ok ""
    requestURL := { scheme := "http", host := "x.com", path := "/", query := ""
                    fragment := "" }
    hrefs := [some { scheme := "", host := "", path := "b/", query := "", fragment := "" },
              none,
              some { scheme := "", host := "", path := "a", query := "q", fragment := "f" },
              some { scheme := "", host := "", path := "a", query := "", fragment := "" }]
    parseOk := true }

/-- A concrete dispatch whose idle window (dispatcher timeout) is not
smaller than its positive global deadline, and whose http client
timeout is below the deadline. -/
def cexDispatch : Dispatch :=
  NewDispatch "http://x.com" 8 2500 10 [] DISPATCHERTIMEOUT (1000 * millisecond)
    { timeout := 500 * millisecond }

theorem strContains_length_le {s sub : String} (h : strContains s sub = true) :
    sub.toList.length ≤ s.toList.length := by
  have h' : sub.toList <:+: s.toList := of_decide_eq_true h
  obtain ⟨p, q, hpq⟩ := h'
  have hl := congrArg List.length hpq
  simp only [List.length_append] at hl
  omega

theorem strHasSuffix_slash_length {s : String} (h : strHasSuffix s "/" = true) :
    1 ≤ s.toList.length := by
  have h' : ("/" : String).toList <:+ s.toList := of_decide_eq_true h
  obtain ⟨t, ht⟩ := h'
  have hl := congrArg List.length ht
  have hone : ("/" : String).toList.length = 1 := rfl
  simp only [List.length_append, hone] at hl
  omega

theorem strTrimSuffix_slash_length {s : String} (h : strHasSuffix s "/" = true) :
    (strTrimSuffix s "/").toList.length = s.toList.length - 1 := by
  unfold strTrimSuffix
  rw [if_pos h]
  show (s.toList.take (s.toList.length - ("/" : String).toList.length)).length = _
  rw [List.length_take, Nat.min_eq_left (Nat.sub_le _ _)]
  rfl

theorem followAdmitNorm_true {b u : String} {v : List String}
    (h : (followAdmitNorm b v u).1 = true) :
    (followAdmitNorm b v u).2 = u :: v ∧ u ∉ v ∧ strContains u b = true ∧
      ∀ sk ∈ URLSuffixesToSkip, strHasSuffix u sk = false := by
  by_cases h1 : strContains u b = false
  · rw [followAdmitNorm, if_pos h1] at h
    exact Bool.noConfusion h
  by_cases h2 : u ∈ v
  · rw [followAdmitNorm, if_neg h1, if_pos h2] at h
    exact Bool.noConfusion h
  by_cases h3 : (URLSuffixesToSkip.any fun sk => strHasSuffix u sk) = true
  · rw [followAdmitNorm, if_neg h1, if_neg h2, if_pos h3] at h
    exact Bool.noConfusion h
  refine ⟨?_, h2, ?_, ?_⟩
  · rw [followAdmitNorm, if_neg h1, if_neg h2, if_neg h3]
  · simpa using h1
  · intro sk hsk
    by_contra hne
    exact h3 (List.any_eq_true.mpr ⟨sk, hsk, by simpa using hne⟩)

theorem followAdmitNorm_false {b u : String} {v : List String}
    (h : (followAdmitNorm b v u).1 = false) :
    (followAdmitNorm b v u).2 = v := by
  by_cases h1 : strContains u b = false
  · rw [followAdmitNorm, if_pos h1]
  by_cases h2 : u ∈ v
  · rw [followAdmitNorm, if_neg h1, if_pos h2]
  by_cases h3 : (URLSuffixesToSkip.any fun sk => strHasSuffix u sk) = true
  · rw [followAdmitNorm, if_neg h1, if_neg h2, if_pos h3]
  rw [followAdmitNorm, if_neg h1, if_neg h2, if_neg h3] at h
  exact Bool.noConfusion h

theorem followAdmit_true {b u : String} {v : List String}
    (h : (followAdmit b v u).1 = true) :
    (followAdmit b v u).2 = strTrimSuffix u "/" :: v ∧
      strTrimSuffix u "/" ∉ v ∧ strContains (strTrimSuffix u "/") b = true ∧
      ∀ sk ∈ URLSuffixesToSkip, strHasSuffix (strTrimSuffix u "/") sk = false :=
  followAdmitNorm_true h

theorem followAdmit_false {b u : String} {v : List String}
    (h : (followAdmit b v u).1 = false) :
    (followAdmit b v u).2 = v :=
  followAdmitNorm_false h

theorem runFollow_cons (b u : String) (us v : List String) :
    runFollow b (u :: us) v =
      (if (followAdmit b v u).1 then
          strTrimSuffix u "/" :: (runFollow b us (followAdmit b v u).2).1
        else (runFollow b us (followAdmit b v u).2).1,
        (runFollow b us (followAdmit b v u).2).2) := rfl

theorem runFollow_spec (b : String) : ∀ (us v : List String),
    (runFollow b us v).1.Nodup ∧
      ∀ a ∈ (runFollow b us v).1,
        a ∉ v ∧ strContains a b = true ∧
          ∀ sk ∈ URLSuffixesToSkip, strHasSuffix a sk = false := by
  intro us
  induction us with
  | nil => intro v; simp [runFollow]
  | cons u us ih =>
    intro v
    rw [runFollow_cons]
    by_cases hfa : (followAdmit b v u).1 = true
    · obtain ⟨hv2, hnm, hcon, hsuf⟩ := followAdmit_true hfa
      rw [hv2, hfa, if_pos rfl]
      have hrec := ih (strTrimSuffix u "/" :: v)
      constructor
      · rw [List.nodup_cons]
        refine ⟨fun hmem => ?_, hrec.1⟩
        exact (hrec.2 _ hmem).1 (List.mem_cons_self _ _)
      · intro a ha
        rcases List.mem_cons.mp ha with he | hm
        · subst he
          exact ⟨hnm, hcon, hsuf⟩
        · obtain ⟨hnv, hcona, hsufa⟩ := hrec.2 a hm
          exact ⟨fun hav => hnv (List.mem_cons_of_mem _ hav), hcona, hsufa⟩
    · have hfa' : (followAdmit b v u).1 = false := by
        simpa using hfa
      have hv2 := followAdmit_false hfa'
      rw [hv2, hfa', if_neg (by simp)]
      exact ih v

/-- C4: across a whole crawl the dedup filter never admits the same
normalized URL twice, admits only URLs in base-URL scope whose suffix is
not excluded, and never admits the base URL itself, which is
pre-recorded as visited. -/
theorem dedup_filter_no_readmission (b : String) (us : List String) :
    (runFollow b us [b]).1.Nodup ∧
      ∀ a ∈ (runFollow b us [b]).1,
        strContains a b = true ∧
          (∀ sk ∈ URLSuffixesToSkip, strHasSuffix a sk = false) ∧
          a ≠ b ∧ a ≠ strTrimSuffix b "/" := by
  obtain ⟨hnd, hall⟩ := runFollow_spec b us [b]
  refine ⟨hnd, fun a ha => ?_⟩
  obtain ⟨hnv, hcon, hsuf⟩ := hall a ha
  have hab : a ≠ b := fun he => hnv (he ▸ List.mem_singleton.mpr rfl)
  refine ⟨hcon, hsuf, hab, ?_⟩
  by_cases hb : strHasSuffix b "/" = true
  · intro he
    have hlb := strHasSuffix_slash_length hb
    have hcl := strContains_length_le hcon
    rw [he, strTrimSuffix_slash_length hb] at hcl
    omega
  · have htb : strTrimSuffix b "/" = b := by
      unfold strTrimSuffix
      rw [if_neg hb]
    rw [htb]
    exact hab

theorem dedup_filter_no_readmission_witness :
    strContains "http://x.com/ok" "http://x.com" = true ∧
      (runFollow "http://x.com"
        ["http://x.com/ok/", "http://x.com/ok", "http://x.com"]
        ["http://x.com"]).1.Nodup :=
  ⟨((dedup_filter_no_readmission "http://x.com"
      ["http://x.com/ok/", "http://x.com/ok", "http://x.com"]).2
      "http://x.com/ok" (by decide)).1,
   (dedup_filter_no_readmission "http://x.com"
      ["http://x.com/ok/", "http://x.com/ok", "http://x.com"]).1⟩

/-- C5: a call of the dedup filter's admit with a URL whose normal form
is already recorded returns false and leaves the visited set unchanged;
the visited check precedes any mutation. -/
theorem followAdmit_idempotent (b : String) (v : List String) (u : String)
    (h : strTrimSuffix u "/" ∈ v) :
    followAdmit b v u = (false, v) := by
  unfold followAdmit followAdmitNorm
  by_cases h1 : strContains (strTrimSuffix u "/") b = false
  · rw [if_pos h1]
  · rw [if_neg h1, if_pos h]

theorem processLinks_cons (cfg : Config) (l : RefLink) (ls : List RefLink)
    (s : CoordState) :
    processLinks cfg (l :: ls) s =
      (if (followAdmit cfg.baseURL s.visited l.url).1 then
        if s.frontier.length < cfg.linkBufferSize then
          processLinks cfg ls
            { s with visited := (followAdmit cfg.baseURL s.visited l.url).2
                     frontier := s.frontier ++ [l] }
        else
          { s with visited := (followAdmit cfg.baseURL s.visited l.url).2
                   status := .terminated .bufferFull }
      else
        processLinks cfg ls
          { s with visited := (followAdmit cfg.baseURL s.visited l.url).2 }) := rfl

theorem processLinks_timer (cfg : Config) :
    ∀ (ls : List RefLink) (s : CoordState),
      (processLinks cfg ls s).timer = s.timer := by
  intro ls
  induction ls with
  | nil => intro s; rfl
  | cons l ls ih =>
    intro s
    rw [processLinks_cons]
    by_cases hfa : (followAdmit cfg.baseURL s.visited l.url).1 = true
    · rw [hfa, if_pos rfl]
      by_cases hlt : s.frontier.length < cfg.linkBufferSize
      · rw [if_pos hlt]
        exact ih _
      · rw [if_neg hlt]
    · have hfa' : (followAdmit cfg.baseURL s.visited l.url).1 = false := by
        simpa using hfa
      rw [hfa', if_neg (by simp)]
      exact ih _

theorem processLinks_spec (cfg : Config) :
    ∀ (ls : List RefLink) (s : CoordState),
      s.status = Status.running →
      s.frontier.length ≤ cfg.linkBufferSize →
      (processLinks cfg ls s).output = s.output ∧
        (processLinks cfg ls s).frontier.length ≤ cfg.linkBufferSize ∧
        (((processLinks cfg ls s).status = Status.running ∧
            ∃ as, (processLinks cfg ls s).frontier = s.frontier ++ as ∧
              as.length + s.visited.length = (processLinks cfg ls s).visited.length) ∨
          (processLinks cfg ls s).status = Status.terminated Reason.bufferFull) := by
  intro ls
  induction ls with
  | nil =>
    intro s hrun hcap
    have h0 : processLinks cfg [] s = s := rfl
    rw [h0]
    exact ⟨rfl, hcap, Or.inl ⟨hrun, [], by simp, by simp⟩⟩
  | cons l ls ih =>
    intro s hrun hcap
    rw [processLinks_cons]
    by_cases hfa : (followAdmit cfg.baseURL s.visited l.url).1 = true
    · obtain ⟨hv2, _, _, _⟩ := followAdmit_true hfa
      rw [hfa, if_pos rfl, hv2]
      by_cases hlt : s.frontier.length < cfg.linkBufferSize
      · rw [if_pos hlt]
        have hcap2 : (s.frontier ++ [l]).length ≤ cfg.linkBufferSize := by
          simp only [List.length_append, List.length_cons, List.length_nil]
          omega
        obtain ⟨hout, hlen, hdisj⟩ := ih
          { s with visited := strTrimSuffix l.url "/" :: s.visited
                   frontier := s.frontier ++ [l] } hrun hcap2
        refine ⟨hout, hlen, ?_⟩
        rcases hdisj with ⟨hst, as, hfr, hvl⟩ | hterm
        · refine Or.inl ⟨hst, l :: as, ?_, ?_⟩
          · rw [hfr]
            simp
          · simp only [List.length_cons] at hvl ⊢
            omega
        · exact Or.inr hterm
      · rw [if_neg hlt]
        exact ⟨rfl, hcap, Or.inr rfl⟩
    · have hfa' : (followAdmit cfg.baseURL s.visited l.url).1 = false := by
        simpa using hfa
      have hv2 := followAdmit_false hfa'
      rw [hfa', if_neg (by simp), hv2]
      have hs : { s with visited := s.visited } = s := rfl
      rw [hs]
      exact ih s hrun hcap

/-- C1 counterexample: a discovered-links event that is received while
the loop runs, and whose link is admitted and enqueued, leaves the idle
timer untouched instead of resetting it to the idle window. -/
theorem links_event_timer_cex :
    cexState.status = Status.running ∧
      (step cexConfig cexState (Event.linksFound [cexLink])).frontier =
        cexState.frontier ++ [cexLink] ∧
      (step cexConfig cexState (Event.linksFound [cexLink])).status =
        Status.running ∧
      (step cexConfig cexState (Event.linksFound [cexLink])).timer =
        cexState.timer ∧
      (step cexConfig cexState (Event.linksFound [cexLink])).timer ≠
        cexConfig.dispatcherTimeout := by
  decide

/-- C1 amended: the idle timer is reset on every result event received
while running, but a discovered-links event never changes it. -/
theorem timer_reset_only_on_results (cfg : Config) (s : CoordState)
    (hrun : s.status = Status.running) :
    (∀ ls, (step cfg s (Event.linksFound ls)).timer = s.timer) ∧
      ∀ r, (step cfg s (Event.result r)).timer = cfg.dispatcherTimeout := by
  constructor
  · intro ls
    unfold step
    rw [if_pos hrun]
    exact processLinks_timer cfg ls s
  · intro r
    unfold step
    rw [if_pos hrun]
    simp only [stepRun]
    by_cases h429 : r.status = httpStatusTooManyRequests
    · rw [if_pos h429]
    · rw [if_neg h429]

theorem timer_reset_only_on_results_witness :
    cexState.status = Status.running ∧
      (step cexConfig cexState (Event.result cexResult)).timer =
        cexConfig.dispatcherTimeout :=
  ⟨by decide,
   (timer_reset_only_on_results cexConfig cexState (by decide)).2 cexResult⟩

/-- C2: while running with the frontier within capacity, a
discovered-links event keeps the frontier within capacity and either
every admitted link is enqueued (the visited set and the frontier grow
together, no accepted link is dropped) with the loop still running, or
the loop returns with reason BufferFull; when the first link is admitted
and the frontier is full, the loop returns at once with reason
BufferFull, enqueuing nothing further. -/
theorem frontier_full_aborts_run (cfg : Config) (s : CoordState)
    (ls : List RefLink) (hrun : s.status = Status.running)
    (hcap : s.frontier.length ≤ cfg.linkBufferSize) :
    (step cfg s (Event.linksFound ls)).frontier.length ≤ cfg.linkBufferSize ∧
      (((step cfg s (Event.linksFound ls)).status = Status.running ∧
          ∃ as, (step cfg s (Event.linksFound ls)).frontier = s.frontier ++ as ∧
            as.length + s.visited.length =
              (step cfg s (Event.linksFound ls)).visited.length) ∨
        (step cfg s (Event.linksFound ls)).status =
          Status.terminated Reason.bufferFull) ∧
      ∀ l rest, ls = l :: rest →
        (followAdmit cfg.baseURL s.visited l.url).1 = true →
        cfg.linkBufferSize ≤ s.frontier.length →
        step cfg s (Event.linksFound ls) =
          { s with visited := (followAdmit cfg.baseURL s.visited l.url).2
                   status := Status.terminated Reason.bufferFull } := by
  have hstep : step cfg s (Event.linksFound ls) = processLinks cfg ls s := by
    unfold step
    rw [if_pos hrun]
    rfl
  rw [hstep]
  obtain ⟨_, hlen, hdisj⟩ := processLinks_spec cfg ls s hrun hcap
  refine ⟨hlen, hdisj, ?_⟩
  intro l rest hls hacc hge
  subst hls
  rw [processLinks_cons, hacc, if_pos rfl, if_neg (Nat.not_lt.mpr hge)]

theorem frontier_full_aborts_run_witness :
    cexState.status = Status.running ∧
      cexState.frontier.length ≤ cexConfig.linkBufferSize ∧
      (step cexConfig cexState (Event.linksFound [cexLink])).frontier.length ≤
        cexConfig.linkBufferSize :=
  ⟨by decide, by decide,
   (frontier_full_aborts_run cexConfig cexState [cexLink] (by decide)
      (by decide)).1⟩

/-- C3: a result event received while running resets nothing visible to
the output unless it is forwarded: on a 429 status the loop returns with
reason TooManyRequests and the result is not forwarded; on any other
status the result is appended to the output stream; and once the loop
has returned no event changes the state, so no later result is ever
forwarded. -/
theorem result_429_politeness_stop (cfg : Config) (s : CoordState) (r : Result)
    (hrun : s.status = Status.running) :
    ((r.status = httpStatusTooManyRequests →
        (step cfg s (Event.result r)).status =
          Status.terminated Reason.tooManyRequests ∧
        (step cfg s (Event.result r)).output = s.output) ∧
      (r.status ≠ httpStatusTooManyRequests →
        (step cfg s (Event.result r)).status = Status.running ∧
        (step cfg s (Event.result r)).output = s.output ++ [r])) ∧
      (∀ (s2 : CoordState) (ρ : Reason) (e : Event),
        s2.status = Status.terminated ρ → step cfg s2 e = s2) ∧
      httpStatusTooManyRequests = 429 := by
  refine ⟨⟨?_, ?_⟩, ?_, rfl⟩
  · intro h429
    unfold step
    rw [if_pos hrun]
    simp only [stepRun]
    rw [if_pos h429]
    exact ⟨rfl, rfl⟩
  · intro h429
    unfold step
    rw [if_pos hrun]
    simp only [stepRun]
    rw [if_neg h429]
    exact ⟨hrun, rfl⟩
  · intro s2 ρ e hterm
    unfold step
    rw [if_neg]
    rw [hterm]
    simp

theorem result_429_politeness_stop_witness :
    cexResult429.status = httpStatusTooManyRequests ∧
      (step cexConfig cexState (Event.result cexResult429)).output =
        cexState.output ∧
      (step cexConfig cexState (Event.result cexResult429)).status =
        Status.terminated Reason.tooManyRequests :=
  ⟨by decide,
   ((result_429_politeness_stop cexConfig cexState cexResult429
      (by decide)).1.1 (by decide)).2,
   ((result_429_politeness_stop cexConfig cexState cexResult429
      (by decide)).1.1 (by decide)).1⟩

theorem followAdmit_idempotent_witness :
    strTrimSuffix "http://x.com/a/" "/" ∈ ["http://x.com", "http://x.com/a"] ∧
      followAdmit "http://x.com" ["http://x.com", "http://x.com/a"]
          "http://x.com/a/" =
        (false, ["http://x.com", "http://x.com/a"]) :=
  ⟨by decide,
   followAdmit_idempotent "http://x.com" ["http://x.com", "http://x.com/a"]
     "http://x.com/a/" (by decide)⟩

theorem mem_getMatchesLoop (terms : List String) :
    ∀ (ls : List String) (n : Nat) (m : SearchMatch),
      m ∈ getMatchesLoop terms n ls ↔
        ∃ i, ∃ hh : i < ls.length, m.line = n + i + 1 ∧ m.term ∈ terms ∧
          strContains (strToLower (ls.get ⟨i, hh⟩)) (strToLower m.term) = true := by
  intro ls
  induction ls with
  | nil =>
    intro n m
    simp [getMatchesLoop]
  | cons line rest ih =>
    intro n m
    simp only [getMatchesLoop, List.mem_append, List.mem_map, List.mem_filter]
    constructor
    · rintro (⟨st, ⟨hstm, hcon⟩, hme⟩ | htail)
      · refine ⟨0, Nat.succ_pos _, ?_, ?_, ?_⟩
        · rw [← hme]
        · rw [← hme]
          exact hstm
        · rw [← hme]
          exact hcon
      · obtain ⟨i, hh, h1, h2, h3⟩ := (ih (n + 1) m).mp htail
        exact ⟨i + 1, Nat.succ_lt_succ hh, by omega, h2, h3⟩
    · rintro ⟨i, hh, h1, h2, h3⟩
      cases i with
      | zero =>
        left
        refine ⟨m.term, ⟨h2, h3⟩, ?_⟩
        cases m with
        | mk ml mt =>
          dsimp only at h1 ⊢
          subst h1
          rfl
      | succ i =>
        right
        exact (ih (n + 1) m).mpr ⟨i, Nat.lt_of_succ_lt_succ hh, by omega, h2, h3⟩

theorem getMatchesLoop_nodup (terms : List String) (hnd : terms.Nodup) :
    ∀ (ls : List String) (n : Nat), (getMatchesLoop terms n ls).Nodup := by
  intro ls
  induction ls with
  | nil => intro n; simp [getMatchesLoop]
  | cons line rest ih =>
    intro n
    simp only [getMatchesLoop]
    refine List.Nodup.append ?_ (ih (n + 1)) ?_
    · exact List.Nodup.map (fun a b hab => congrArg SearchMatch.term hab)
        (hnd.filter _)
    · intro x hx1 hx2
      obtain ⟨st, _, hme⟩ := List.mem_map.mp hx1
      obtain ⟨i, hh, h1, _, _⟩ :=
        (mem_getMatchesLoop terms rest (n + 1) x).mp hx2
      rw [← hme] at h1
      dsimp only at h1
      omega

/-- C6 counterexample: a duplicated search term makes `getMatches`
produce the same (line, term) pair twice. -/
theorem getMatches_duplicate_pair_cex :
    (getMatches "a" ["a", "a"]).count { line := 1, term := "a" } = 2 := by
  decide

/-- C6 amended: with a duplicate-free term list `getMatches` yields at
most one SearchMatch per (line, term) pair; membership is characterized
by 1-based line numbers and case-insensitive substring containment; an
empty term list yields no matches; and the body there/there-old-man with
the term there yields exactly lines 1 and 2. -/
theorem getMatches_spec (body : String) (terms : List String) :
    getMatches body [] = [] ∧
      (∀ m : SearchMatch, m ∈ getMatches body terms ↔
        ∃ i, ∃ hh : i < (goLines body).length, m.line = i + 1 ∧
          m.term ∈ terms ∧
          strContains (strToLower ((goLines body).get ⟨i, hh⟩))
            (strToLower m.term) = true) ∧
      (terms.Nodup → (getMatches body terms).Nodup) ∧
      getMatches "there\nthere old man" ["there"] =
        [{ line := 1, term := "there" }, { line := 2, term := "there" }] := by
  refine ⟨rfl, ?_, ?_, by decide⟩
  · intro m
    by_cases ht : terms.length = 0
    · have he : terms = [] := List.length_eq_zero.mp ht
      subst he
      simp [getMatches]
    · rw [getMatches, if_neg ht, mem_getMatchesLoop]
      constructor
      · rintro ⟨i, hh, h1, h2, h3⟩
        exact ⟨i, hh, by omega, h2, h3⟩
      · rintro ⟨i, hh, h1, h2, h3⟩
        exact ⟨i, hh, by omega, h2, h3⟩
  · intro hnd
    rw [getMatches]
    by_cases ht : terms.length = 0
    · rw [if_pos ht]
      exact List.nodup_nil
    · rw [if_neg ht]
      exact getMatchesLoop_nodup terms hnd _ _

theorem getMatches_spec_witness :
    (["there"] : List String).Nodup ∧
      (getMatches "there\nthere old man" ["there"]).Nodup :=
  ⟨by decide,
   (getMatches_spec "there\nthere old man" ["there"]).2.2.1 (by decide)⟩

theorem clientGet_response_status (resp : Response) (url referrer : String)
    (terms : List String) :
    (clientGet (FetchOutcome.response resp) url referrer terms).1.status =
      resp.statusCode := by
  simp only [clientGet]
  by_cases h1 : resp.statusCode ≠ httpStatusOK
  · rw [if_pos h1]
  · rw [if_neg h1]
    by_cases h2 : strContains resp.contentType "text/html" = false
    · rw [if_pos h2]
    · rw [if_neg h2]
      cases hb : resp.body with
      | error msg => rfl
      | ok body =>
        by_cases hp : resp.parseOk = true
        · simp [getLinksM, hp]
        · have hp' : resp.parseOk = false := by simpa using hp
          simp [getLinksM, hp']

/-- C7 counterexample: a 204 response is 2xx but still carries
StatusNotOk, because the source compares the status with 200 exactly. -/
theorem statusNotOk_2xx_cex :
    (clientGet (FetchOutcome.response resp204) "http://x.com" "/" []).1.err =
        some GoErr.statusNotOk ∧
      200 ≤ resp204.statusCode ∧ resp204.statusCode < 300 := by
  decide

/-- C7 amended: the Result carries StatusNotOk exactly when the response
status differs from 200 (http.StatusOK), and the status code is always
retained on the Result. -/
theorem statusNotOk_iff_not_200 (resp : Response) (url referrer : String)
    (terms : List String) :
    ((clientGet (FetchOutcome.response resp) url referrer terms).1.err =
        some GoErr.statusNotOk ↔ resp.statusCode ≠ httpStatusOK) ∧
      (clientGet (FetchOutcome.response resp) url referrer terms).1.status =
        resp.statusCode ∧
      httpStatusOK = 200 := by
  refine ⟨?_, clientGet_response_status resp url referrer terms, rfl⟩
  simp only [clientGet]
  by_cases h1 : resp.statusCode ≠ httpStatusOK
  · rw [if_pos h1]
    simpa using h1
  · have h1' : resp.statusCode = httpStatusOK := not_not.mp h1
    rw [if_neg h1]
    by_cases h2 : strContains resp.contentType "text/html" = false
    · rw [if_pos h2]
      simp [h1']
    · rw [if_neg h2]
      cases hb : resp.body with
      | error msg => simp [h1']
      | ok body =>
        by_cases hp : resp.parseOk = true
        · simp [getLinksM, hp, h1']
        · have hp' : resp.parseOk = false := by simpa using hp
          simp [getLinksM, hp', h1']

theorem statusNotOk_iff_not_200_witness :
    resp204.statusCode ≠ httpStatusOK ∧
      (clientGet (FetchOutcome.response resp204) "http://x.com" "/" []).1.status =
        resp204.statusCode :=
  ⟨by decide, (statusNotOk_iff_not_200 resp204 "http://x.com" "/" []).2.1⟩

/-- C9 counterexample: a dispatch whose idle window is not smaller than
its positive global deadline prints no configuration warning in either
variant of the pre-run check. -/
theorem idle_ge_deadline_no_warning_cex :
    cexDispatch.ctxTimeout ≤ cexDispatch.dispatcherTimeout ∧
      0 < cexDispatch.ctxTimeout ∧
      dispatchWarnCond cexDispatch = false ∧
      dispatcherWarnCond = false := by
  decide

/-- C9 amended: the warning of the dispatch variant is printed exactly
when the global deadline is positive and smaller than the http client
timeout; the global-variable variant compares DISPATCHERTIMEOUT with
HTTPTIMEOUT (false at the shipped values); the idle window is never
compared with the global deadline, and the idle timer firing still
terminates any running coordinator state. -/
theorem warning_condition_actual :
    (∀ d : Dispatch, dispatchWarnCond d = true ↔
        0 < d.ctxTimeout ∧ d.ctxTimeout < d.client.timeout) ∧
      dispatcherWarnCond = false ∧
      ∀ (cfg : Config) (s : CoordState), s.status = Status.running →
        (step cfg s Event.timerFired).status = Status.terminated Reason.idle := by
  refine ⟨?_, by decide, ?_⟩
  · intro d
    unfold dispatchWarnCond
    simp
  · intro cfg s hrun
    unfold step
    rw [if_pos hrun]
    rfl

theorem warning_condition_actual_witness :
    cexState.status = Status.running ∧
      (step cexConfig cexState Event.timerFired).status =
        Status.terminated Reason.idle :=
  ⟨by decide, warning_condition_actual.2.2 cexConfig cexState (by decide)⟩

/-- C10: NewDispatch replaces a workers, linkBufferSize or httpRateSec
argument below 1 by the package default (8, 2500, 10 respectively) and
stores every other field exactly as supplied. -/
theorem newDispatch_fields (baseURL : String)
    (workers linkBufferSize httpRateSec : Int) (searchTerms : List String)
    (dispatcherTimeout timeout : Int) (client : GetClientM) :
    ((workers < 1 →
        (NewDispatch baseURL workers linkBufferSize httpRateSec searchTerms
          dispatcherTimeout timeout client).workers = GOWORKERS) ∧
      (1 ≤ workers →
        (NewDispatch baseURL workers linkBufferSize httpRateSec searchTerms
          dispatcherTimeout timeout client).workers = workers)) ∧
      ((linkBufferSize < 1 →
        (NewDispatch baseURL workers linkBufferSize httpRateSec searchTerms
          dispatcherTimeout timeout client).linkBufferSize = LINKBUFFERSIZE) ∧
      (1 ≤ linkBufferSize →
        (NewDispatch baseURL workers linkBufferSize httpRateSec searchTerms
          dispatcherTimeout timeout client).linkBufferSize = linkBufferSize)) ∧
      ((httpRateSec < 1 →
        (NewDispatch baseURL workers linkBufferSize httpRateSec searchTerms
          dispatcherTimeout timeout client).httpRateSec = HTTPRATESEC) ∧
      (1 ≤ httpRateSec →
        (NewDispatch baseURL workers linkBufferSize httpRateSec searchTerms
          dispatcherTimeout timeout client).httpRateSec = httpRateSec)) ∧
      (NewDispatch baseURL workers linkBufferSize httpRateSec searchTerms
          dispatcherTimeout timeout client).baseURL = baseURL ∧
      (NewDispatch baseURL workers linkBufferSize httpRateSec searchTerms
          dispatcherTimeout timeout client).searchTerms = searchTerms ∧
      (NewDispatch baseURL workers linkBufferSize httpRateSec searchTerms
          dispatcherTimeout timeout client).dispatcherTimeout =
        dispatcherTimeout ∧
      (NewDispatch baseURL workers linkBufferSize httpRateSec searchTerms
          dispatcherTimeout timeout client).ctxTimeout = timeout ∧
      (NewDispatch baseURL workers linkBufferSize httpRateSec searchTerms
          dispatcherTimeout timeout client).client = client ∧
      GOWORKERS = 8 ∧ LINKBUFFERSIZE = 2500 ∧ HTTPRATESEC = 10 := by
  refine ⟨⟨?_, ?_⟩, ⟨?_, ?_⟩, ⟨?_, ?_⟩, rfl, rfl, rfl, rfl, rfl, rfl, rfl, rfl⟩
  · intro h
    simp [NewDispatch, if_pos h]
  · intro h
    simp [NewDispatch, if_neg (not_lt.mpr h)]
  · intro h
    simp [NewDispatch, if_pos h]
  · intro h
    simp [NewDispatch, if_neg (not_lt.mpr h)]
  · intro h
    simp [NewDispatch, if_pos h]
  · intro h
    simp [NewDispatch, if_neg (not_lt.mpr h)]

theorem newDispatch_fields_witness :
    ((0 : Int) < 1 ∧
      (NewDispatch "http://x.com" 0 0 0 [] 5 7 { timeout := 3 }).workers =
        GOWORKERS) ∧
      (1 : Int) ≤ 9 ∧
      (NewDispatch "http://x.com" 9 0 0 [] 5 7 { timeout := 3 }).workers = 9 :=
  ⟨⟨by decide,
    (newDispatch_fields "http://x.com" 0 0 0 [] 5 7 { timeout := 3 }).1.1
      (by decide)⟩,
   by decide,
   (newDispatch_fields "http://x.com" 9 0 0 [] 5 7 { timeout := 3 }).1.2
     (by decide)⟩

theorem compactTail_mem : ∀ (l : List String) (prev x : String),
    x ∈ compactTail prev l → x ∈ l := by
  intro l
  induction l with
  | nil =>
    intro prev x h
    simp [compactTail] at h
  | cons b rest ih =>
    intro prev x h
    simp only [compactTail] at h
    by_cases he : prev = b
    · rw [if_pos he] at h
      exact List.mem_cons_of_mem _ (ih prev x h)
    · rw [if_neg he] at h
      rcases List.mem_cons.mp h with rfl | hm
      · exact List.mem_cons_self _ _
      · exact List.mem_cons_of_mem _ (ih b x hm)

theorem compactTail_sorted : ∀ (l : List String) (prev : String),
    (prev :: l).Sorted (· ≤ ·) → (prev :: compactTail prev l).Sorted (· < ·) := by
  intro l
  induction l with
  | nil =>
    intro prev _
    simp [compactTail]
  | cons b rest ih =>
    intro prev h
    obtain ⟨hle, hs⟩ := List.sorted_cons.mp h
    simp only [compactTail]
    by_cases he : prev = b
    · rw [if_pos he]
      apply ih prev
      rw [List.sorted_cons]
      exact ⟨fun x hx => hle x (List.mem_cons_of_mem _ hx),
        (List.sorted_cons.mp hs).2⟩
    · rw [if_neg he]
      have hpb : prev < b := lt_of_le_of_ne (hle b (List.mem_cons_self _ _)) he
      have hrec := ih b hs
      rw [List.sorted_cons]
      refine ⟨fun x hx => ?_, hrec⟩
      rcases List.mem_cons.mp hx with rfl | hm
      · exact hpb
      · have hbx : b ≤ x :=
          (List.sorted_cons.mp hs).1 x (compactTail_mem rest b x hm)
        exact lt_of_lt_of_le hpb hbx

theorem slicesCompact_sorted_lt : ∀ (l : List String),
    l.Sorted (· ≤ ·) → (slicesCompact l).Sorted (· < ·) := by
  intro l h
  cases l with
  | nil => simp [slicesCompact]
  | cons a rest =>
    simp only [slicesCompact]
    exact compactTail_sorted rest a h

theorem slicesCompact_mem : ∀ (l : List String) (x : String),
    x ∈ slicesCompact l → x ∈ l := by
  intro l x h
  cases l with
  | nil => simp [slicesCompact] at h
  | cons a rest =>
    simp only [slicesCompact] at h
    rcases List.mem_cons.mp h with rfl | hm
    · exact List.mem_cons_self _ _
    · exact List.mem_cons_of_mem _ (compactTail_mem rest a x hm)

theorem sortURLs_sorted (l : List String) : (sortURLs l).Sorted (· ≤ ·) :=
  List.sorted_insertionSort _ l

theorem resolveReference_scheme {base ref : URL} (hb : base.scheme ≠ "") :
    (resolveReference base ref).scheme ≠ "" := by
  unfold resolveReference
  split_ifs <;> assumption

theorem clientGet_url_referrer (out : FetchOutcome) (url referrer : String)
    (terms : List String) :
    (clientGet out url referrer terms).1.url = url ∧
      (clientGet out url referrer terms).1.referrer = referrer := by
  cases out with
  | failure msg => exact ⟨rfl, rfl⟩
  | response resp =>
    simp only [clientGet]
    by_cases h1 : resp.statusCode ≠ httpStatusOK
    · rw [if_pos h1]
      exact ⟨rfl, rfl⟩
    · rw [if_neg h1]
      by_cases h2 : strContains resp.contentType "text/html" = false
      · rw [if_pos h2]
        exact ⟨rfl, rfl⟩
      · rw [if_neg h2]
        cases hb : resp.body with
        | error msg => exact ⟨rfl, rfl⟩
        | ok body =>
          by_cases hp : resp.parseOk = true
          · simp [getLinksM, hp]
          · have hp' : resp.parseOk = false := by simpa using hp
            simp [getLinksM, hp']

theorem clientGet_links_cases (out : FetchOutcome) (url referrer : String)
    (terms : List String) :
    ((clientGet out url referrer terms).1.err ≠ none ∧
        (clientGet out url referrer terms).2 = []) ∨
      ((clientGet out url referrer terms).1.err = none ∧
        ∃ resp, out = FetchOutcome.response resp ∧
          (clientGet out url referrer terms).2 =
            slicesCompact (sortURLs (resp.hrefs.filterMap
              (fun h => h.map (linkString resp.requestURL))))) := by
  cases out with
  | failure msg => exact Or.inl ⟨by simp [clientGet], rfl⟩
  | response resp =>
    simp only [clientGet]
    by_cases h1 : resp.statusCode ≠ httpStatusOK
    · rw [if_pos h1]
      exact Or.inl ⟨by simp, rfl⟩
    · rw [if_neg h1]
      by_cases h2 : strContains resp.contentType "text/html" = false
      · rw [if_pos h2]
        exact Or.inl ⟨by simp, rfl⟩
      · rw [if_neg h2]
        cases hb : resp.body with
        | error msg => exact Or.inl ⟨by simp, rfl⟩
        | ok body =>
          by_cases hp : resp.parseOk = true
          · refine Or.inr ⟨by simp [getLinksM, hp], resp, rfl, ?_⟩
            simp [getLinksM, hp]
          · have hp' : resp.parseOk = false := by simpa using hp
            refine Or.inl ⟨by simp [getLinksM, hp'], ?_⟩
            simp [getLinksM, hp']

/-- C8: the fetch routine always tags the Result with the requested url
and referrer; every error path returns an empty discovered-links list;
and on success the discovered-links list is sorted without duplicates
and each entry is the rendering of an href resolved against the page
URL with query and fragment stripped and one trailing slash trimmed,
absolute whenever the page URL is. -/
theorem fetch_links_shape (out : FetchOutcome) (url referrer : String)
    (terms : List String) :
    ((clientGet out url referrer terms).1.url = url ∧
        (clientGet out url referrer terms).1.referrer = referrer) ∧
      ((clientGet out url referrer terms).1.err ≠ none →
        (clientGet out url referrer terms).2 = []) ∧
      ((clientGet out url referrer terms).1.err = none →
        (clientGet out url referrer terms).2.Sorted (· ≤ ·) ∧
          (clientGet out url referrer terms).2.Nodup ∧
          ∀ resp, out = FetchOutcome.response resp →
            ∀ l ∈ (clientGet out url referrer terms).2, ∃ u,
              some u ∈ resp.hrefs ∧ l = linkString resp.requestURL u ∧
                (resp.requestURL.scheme ≠ "" →
                  (resolveReference resp.requestURL u).scheme ≠ "")) := by
  refine ⟨clientGet_url_referrer out url referrer terms, ?_, ?_⟩
  · intro hne
    rcases clientGet_links_cases out url referrer terms with ⟨_, he⟩ | ⟨hnone, _⟩
    · exact he
    · exact absurd hnone hne
  · intro hnone
    rcases clientGet_links_cases out url referrer terms with
      ⟨hne, _⟩ | ⟨_, resp, hout, hlinks⟩
    · exact absurd hnone hne
    · rw [hlinks]
      have hlt := slicesCompact_sorted_lt _ (sortURLs_sorted
        (resp.hrefs.filterMap (fun h => h.map (linkString resp.requestURL))))
      refine ⟨hlt.imp le_of_lt, hlt.imp ne_of_lt, ?_⟩
      intro resp' hresp' l hl
      have hre : resp = resp' := by
        rw [hout] at hresp'
        injection hresp'
      subst hre
      have h1 := slicesCompact_mem _ l hl
      have h2 := (List.mem_insertionSort _).mp h1
      obtain ⟨h, hh, hmap⟩ := List.mem_filterMap.mp h2
      cases h with
      | none => exact absurd hmap (by simp)
      | some u =>
        refine ⟨u, hh, ?_, fun hb => resolveReference_scheme hb⟩
        simpa using hmap.symm

theorem fetch_links_shape_witness :
    (clientGet (FetchOutcome.response respLinks) "http://x.com/" "/" []).1.err =
        none ∧
      (clientGet (FetchOutcome.response respLinks)
          "http://x.com/" "/" []).2.Sorted (· ≤ ·) ∧
      (clientGet (FetchOutcome.response respLinks) "http://x.com/" "/" []).2.Nodup :=
  ⟨by decide,
   ((fetch_links_shape (FetchOutcome.response respLinks) "http://x.com/" "/"
      []).2.2 (by decide)).1,
   ((fetch_links_shape (FetchOutcome.response respLinks) "http://x.com/" "/"
      []).2.2 (by decide)).2.1⟩

end Webchk
